import Mathlib

/-!
# Verification of the solana-encrypted-chat client

Shallow embedding of the repository's code:

* Bytes are natural numbers `< 256`; byte strings are `List Nat`.
  JavaScript strings are modeled as lists of their character codes.
* `encode64`/`decode64` model `forge.util.encode64`/`decode64` and
  `Buffer.from(s, 'base64')` / `buf.toString('base64')` (canonical
  RFC 4648 base64 with `=` padding, `'='` has character code 61).
* The RSA-OAEP envelope used by `encryptMessage`/`decryptMessage`
  (node-forge `publicKey.encrypt(msg, 'RSA-OAEP')`) is modeled as
  PKCS#1 v2 EME-OAEP over an abstract mask-generation function `mgf`,
  followed by textbook RSA exponentiation modulo `n`.
* The on-chain program (`programs/solana-encrypted-chat/src/lib.rs`) is
  not part of the given sources; its `initialize`/`send_message`
  semantics are modeled from the spec where needed (marked below).
-/

namespace SolanaChat

/-! ## Base64 codec (`forge.util.encode64` / `Buffer` base64 boundary) -/

/-- The base64 alphabet: index `i < 64` to character code. -/
def b64Char (i : Nat) : Nat :=
  if i < 26 then 65 + i
  else if i < 52 then 97 + (i - 26)
  else if i < 62 then 48 + (i - 52)
  else if i = 62 then 43
  else 47

/-- Character code back to its base64 index. -/
def b64Val (c : Nat) : Nat :=
  if 65 ≤ c ∧ c ≤ 90 then c - 65
  else if 97 ≤ c ∧ c ≤ 122 then 26 + (c - 97)
  else if 48 ≤ c ∧ c ≤ 57 then 52 + (c - 48)
  else if c = 43 then 62
  else 63

/-- `c` is a character code of the base64 alphabet. -/
def isB64 (c : Nat) : Prop :=
  (65 ≤ c ∧ c ≤ 90) ∨ (97 ≤ c ∧ c ≤ 122) ∨ (48 ≤ c ∧ c ≤ 57) ∨ c = 43 ∨ c = 47

instance : DecidablePred isB64 := fun c => by unfold isB64; infer_instance

/-- Base64-encode a byte string (canonical, with `=` padding),
as `forge.util.encode64` and `Buffer.prototype.toString('base64')` do. -/
def encode64 : List Nat → List Nat
  | [] => []
  | [a] => [b64Char (a / 4), b64Char (a % 4 * 16), 61, 61]
  | [a, b] => [b64Char (a / 4), b64Char (a % 4 * 16 + b / 16), b64Char (b % 16 * 4), 61]
  | a :: b :: c :: t =>
      b64Char (a / 4) :: b64Char (a % 4 * 16 + b / 16) ::
      b64Char (b % 16 * 4 + c / 64) :: b64Char (c % 64) :: encode64 t

/-- Base64-decode a character-code string back to bytes, as
`Buffer.from(s, 'base64')` does on canonical input; `none` on
non-canonical input. -/
def decode64 : List Nat → Option (List Nat)
  | [] => some []
  | w :: x :: y :: z :: t =>
      if isB64 w ∧ isB64 x then
        if z = 61 then
          if t = [] then
            if y = 61 then some [b64Val w * 4 + b64Val x / 16]
            else if isB64 y then
              some [b64Val w * 4 + b64Val x / 16, b64Val x % 16 * 16 + b64Val y / 4]
            else none
          else none
        else
          if isB64 y ∧ isB64 z then
            (decode64 t).map (fun r =>
              (b64Val w * 4 + b64Val x / 16) ::
              (b64Val x % 16 * 16 + b64Val y / 4) ::
              (b64Val y % 4 * 64 + b64Val z) :: r)
          else none
      else none
  | _ => none

lemma b64Val_b64Char {i : Nat} (h : i < 64) : b64Val (b64Char i) = i := by
  unfold b64Char b64Val
  split_ifs <;> omega

lemma isB64_b64Char {i : Nat} (h : i < 64) : isB64 (b64Char i) := by
  unfold b64Char isB64
  split_ifs <;> omega

lemma b64Char_ne_61 {i : Nat} (h : i < 64) : b64Char i ≠ 61 := by
  unfold b64Char
  split_ifs <;> omega

/-- Decoding is a left inverse of encoding on byte strings. -/
theorem decode64_encode64 : ∀ b : List Nat, (∀ x ∈ b, x < 256) →
    decode64 (encode64 b) = some b
  | [], _ => rfl
  | [a], h => by
      have ha : a < 256 := h a (by simp)
      have h1 : a / 4 < 64 := by omega
      have h2 : a % 4 * 16 < 64 := by omega
      simp [encode64, decode64, isB64_b64Char h1, isB64_b64Char h2,
        b64Val_b64Char h1, b64Val_b64Char h2]
      omega
  | [a, b], h => by
      have ha : a < 256 := h a (by simp)
      have hb : b < 256 := h b (by simp)
      have h1 : a / 4 < 64 := by omega
      have h2 : a % 4 * 16 + b / 16 < 64 := by omega
      have h3 : b % 16 * 4 < 64 := by omega
      simp [encode64, decode64, b64Char_ne_61 h3, isB64_b64Char h1, isB64_b64Char h2,
        isB64_b64Char h3, b64Val_b64Char h1, b64Val_b64Char h2, b64Val_b64Char h3]
      omega
  | a :: b :: c :: t, h => by
      have ha : a < 256 := h a (by simp)
      have hb : b < 256 := h b (by simp)
      have hc : c < 256 := h c (by simp)
      have h1 : a / 4 < 64 := by omega
      have h2 : a % 4 * 16 + b / 16 < 64 := by omega
      have h3 : b % 16 * 4 + c / 64 < 64 := by omega
      have h4 : c % 64 < 64 := by omega
      have ih := decode64_encode64 t (by
        intro x hx
        exact h x (by simp [hx]))
      simp [encode64, decode64, b64Char_ne_61 h4, isB64_b64Char h1, isB64_b64Char h2,
        isB64_b64Char h3, isB64_b64Char h4, ih,
        b64Val_b64Char h1, b64Val_b64Char h2, b64Val_b64Char h3, b64Val_b64Char h4]
      omega

/-! ## EME-OAEP padding

Models the OAEP padding performed inside node-forge's
`publicKey.encrypt(message, 'RSA-OAEP')` (PKCS#1 v2, empty label):
the hash is kept abstract; `lHash` is the label hash, `seed` the random
seed of length `hLen`, `mgf` the mask generation function. -/

/-- Bytewise xor of two byte strings (truncating to the shorter). -/
def xorBytes (a b : List Nat) : List Nat := List.zipWith Nat.xor a b

lemma length_xorBytes (a b : List Nat) :
    (xorBytes a b).length = min a.length b.length := by
  simp [xorBytes]

lemma xorBytes_xorBytes_cancel : ∀ a b : List Nat, a.length = b.length →
    xorBytes (xorBytes a b) b = a
  | [], [], _ => rfl
  | x :: a, y :: b, h => by
      have hx : Nat.xor (Nat.xor x y) y = x := Nat.xor_cancel_right y x
      simp only [xorBytes, List.zipWith_cons_cons]
      rw [hx]
      exact congrArg (x :: ·) (xorBytes_xorBytes_cancel a b (by simpa using h))
  | [], _ :: _, h => by simp at h
  | _ :: _, [], h => by simp at h

lemma mem_xorBytes_lt : ∀ {a b : List Nat}, (∀ u ∈ a, u < 256) → (∀ u ∈ b, u < 256) →
    ∀ x ∈ xorBytes a b, x < 256
  | [], _, _, _ => by simp [xorBytes]
  | _ :: _, [], _, _ => by simp [xorBytes]
  | u :: a, v :: b, ha, hb => by
      intro x hx
      simp only [xorBytes, List.zipWith_cons_cons, List.mem_cons] at hx
      rcases hx with rfl | hx
      · exact Nat.xor_lt_two_pow (n := 8) (ha u (by simp)) (hb v (by simp))
      · exact mem_xorBytes_lt (fun u hu => ha u (by simp [hu]))
          (fun v hv => hb v (by simp [hv])) x hx

/-- EME-OAEP encoding of message `M` into a `k`-byte encoded block:
`EM = 0x00 ‖ maskedSeed ‖ maskedDB` with
`DB = lHash ‖ PS ‖ 0x01 ‖ M`. -/
def oaepEncode (k hLen : Nat) (lHash seed : List Nat)
    (mgf : List Nat → Nat → List Nat) (M : List Nat) : List Nat :=
  let PS := List.replicate (k - M.length - 2 * hLen - 2) 0
  let DB := lHash ++ PS ++ 1 :: M
  let maskedDB := xorBytes DB (mgf seed (k - hLen - 1))
  let maskedSeed := xorBytes seed (mgf maskedDB hLen)
  0 :: (maskedSeed ++ maskedDB)

/-- Strip the `PS ‖ 0x01` padding: skip zero bytes, expect a `0x01`,
return the rest; any other leading byte is a padding failure. -/
def unpad : List Nat → Option (List Nat)
  | [] => none
  | 0 :: t => unpad t
  | 1 :: t => some t
  | _ => none

/-- EME-OAEP decoding: undo the two masks, check the leading `0x00`
byte and the label hash, strip the padding.  `none` models the
`DecryptionError` thrown on padding failure. -/
def oaepDecode (k hLen : Nat) (lHash : List Nat)
    (mgf : List Nat → Nat → List Nat) (EM : List Nat) : Option (List Nat) :=
  match EM with
  | [] => none
  | y :: rest =>
      if y = 0 ∧ rest.length = k - 1 then
        let maskedSeed := rest.take hLen
        let maskedDB := rest.drop hLen
        let seed := xorBytes maskedSeed (mgf maskedDB hLen)
        let DB := xorBytes maskedDB (mgf seed (k - hLen - 1))
        if DB.take hLen = lHash then unpad (DB.drop hLen) else none
      else none

lemma unpad_replicate (j : Nat) (M : List Nat) :
    unpad (List.replicate j 0 ++ 1 :: M) = some M := by
  induction j with
  | zero => rfl
  | succ n ih => simpa [List.replicate_succ, unpad] using ih

/-- OAEP decode is a left inverse of OAEP encode when the seed and label
hash have length `hLen`, the mask generator honours its requested output
length, and the message fits the payload bound `k - 2·hLen - 2`. -/
theorem oaepDecode_oaepEncode (k hLen : Nat) (lHash seed M : List Nat)
    (mgf : List Nat → Nat → List Nat)
    (hk : 2 * hLen + 2 ≤ k)
    (hlh : lHash.length = hLen) (hseed : seed.length = hLen)
    (hmgf : ∀ s m, (mgf s m).length = m)
    (hM : M.length ≤ k - (2 * hLen + 2)) :
    oaepDecode k hLen lHash mgf (oaepEncode k hLen lHash seed mgf M) = some M := by
  have hDBlen : (lHash ++ List.replicate (k - M.length - 2 * hLen - 2) 0 ++ 1 :: M).length
      = k - hLen - 1 := by
    simp [hlh]
    omega
  set DB := lHash ++ List.replicate (k - M.length - 2 * hLen - 2) 0 ++ 1 :: M with hDB
  set maskedDB := xorBytes DB (mgf seed (k - hLen - 1)) with hmDB
  have hmDBlen : maskedDB.length = k - hLen - 1 := by
    rw [hmDB, length_xorBytes, hDBlen, hmgf]
    omega
  set maskedSeed := xorBytes seed (mgf maskedDB hLen) with hmS
  have hmSlen : maskedSeed.length = hLen := by
    rw [hmS, length_xorBytes, hseed, hmgf]
    omega
  have henc : oaepEncode k hLen lHash seed mgf M = 0 :: (maskedSeed ++ maskedDB) := rfl
  rw [henc]
  simp only [oaepDecode]
  rw [if_pos ⟨by trivial, by simp only [List.length_append, hmSlen, hmDBlen]; omega⟩,
    List.take_left' hmSlen, List.drop_left' hmSlen]
  have hseedrec : xorBytes maskedSeed (mgf maskedDB hLen) = seed := by
    rw [hmS]
    exact xorBytes_xorBytes_cancel seed (mgf maskedDB hLen) (by rw [hseed, hmgf])
  rw [hseedrec]
  have hDBrec : xorBytes maskedDB (mgf seed (k - hLen - 1)) = DB := by
    rw [hmDB]
    exact xorBytes_xorBytes_cancel DB (mgf seed (k - hLen - 1)) (by rw [hDBlen, hmgf])
  rw [hDBrec, hDB]
  rw [List.append_assoc, List.take_left' hlh, List.drop_left' hlh]
  rw [if_pos rfl]
  exact unpad_replicate _ M

/-! ## Byte-string / integer conversion (RFC 8017 I2OSP / OS2IP) -/

/-- OS2IP: big-endian byte string to integer. -/
def os2ip (b : List Nat) : Nat := b.foldl (fun acc x => acc * 256 + x) 0

/-- I2OSP: integer to big-endian byte string of length `k`. -/
def i2osp : Nat → Nat → List Nat
  | 0, _ => []
  | k + 1, x => i2osp k (x / 256) ++ [x % 256]

lemma length_i2osp : ∀ k x, (i2osp k x).length = k
  | 0, _ => rfl
  | k + 1, x => by simp [i2osp, length_i2osp k]

lemma mem_i2osp_lt : ∀ k x, ∀ y ∈ i2osp k x, y < 256
  | 0, _ => by simp [i2osp]
  | k + 1, x => by
      intro y hy
      simp only [i2osp, List.mem_append, List.mem_singleton] at hy
      rcases hy with hy | rfl
      · exact mem_i2osp_lt k (x / 256) y hy
      · omega

lemma os2ip_append_singleton (b : List Nat) (y : Nat) :
    os2ip (b ++ [y]) = os2ip b * 256 + y := by
  simp [os2ip, List.foldl_append]

lemma os2ip_lt (b : List Nat) (hb : ∀ x ∈ b, x < 256) :
    os2ip b < 256 ^ b.length := by
  induction b using List.reverseRecOn with
  | nil => simp [os2ip]
  | append_singleton b y ih =>
      have hy : y < 256 := hb y (by simp)
      have hb' : os2ip b < 256 ^ b.length := ih (fun x hx => hb x (by simp [hx]))
      rw [os2ip_append_singleton]
      simp only [List.length_append, List.length_singleton, pow_succ]
      omega

lemma i2osp_os2ip (b : List Nat) (hb : ∀ x ∈ b, x < 256) :
    i2osp b.length (os2ip b) = b := by
  induction b using List.reverseRecOn with
  | nil => rfl
  | append_singleton b y ih =>
      have hy : y < 256 := hb y (by simp)
      rw [os2ip_append_singleton]
      simp only [List.length_append, List.length_singleton, i2osp]
      have h1 : (os2ip b * 256 + y) / 256 = os2ip b := by omega
      have h2 : (os2ip b * 256 + y) % 256 = y := by omega
      rw [h1, h2, ih (fun x hx => hb x (by simp [hx]))]

lemma i2osp_os2ip' (k : Nat) (b : List Nat) (hb : ∀ x ∈ b, x < 256)
    (hlen : b.length = k) : i2osp k (os2ip b) = b := by
  subst hlen
  exact i2osp_os2ip b hb

lemma os2ip_i2osp : ∀ k x, x < 256 ^ k → os2ip (i2osp k x) = x
  | 0, x, h => by
      simp [Nat.pow_zero] at h
      simp [i2osp, os2ip, h]
  | k + 1, x, h => by
      have hrec : x / 256 < 256 ^ k := by
        rw [pow_succ] at h
        omega
      rw [i2osp, os2ip_append_singleton, os2ip_i2osp k (x / 256) hrec]
      omega

/-! ## RSA and the `encryptMessage` / `decryptMessage` envelope

`EncryptedChat.encryptMessage(message, pem)` parses the recipient's
public key `(n, e)`, OAEP-pads the message, RSA-encrypts, and returns
the ciphertext base64-encoded (`forge.util.encode64`).
`EncryptedChat.decryptMessage(encryptedMessage, pem)` base64-decodes
(`forge.util.decode64`) and inverts with the private key `(n, d)`;
a thrown error is modeled as `none`. -/

/-- RSA-OAEP encryption to ciphertext bytes (`k` = modulus byte length). -/
def rsaOaepEncrypt (n e k hLen : Nat) (lHash seed : List Nat)
    (mgf : List Nat → Nat → List Nat) (M : List Nat) : List Nat :=
  i2osp k (os2ip (oaepEncode k hLen lHash seed mgf M) ^ e % n)

/-- RSA-OAEP decryption of ciphertext bytes. -/
def rsaOaepDecrypt (n d k hLen : Nat) (lHash : List Nat)
    (mgf : List Nat → Nat → List Nat) (c : List Nat) : Option (List Nat) :=
  oaepDecode k hLen lHash mgf (i2osp k (os2ip c ^ d % n))

/-- `EncryptedChat.encryptMessage`: RSA-OAEP encrypt under the public key
`(n, e)`, then base64-encode the ciphertext. -/
def encryptMessage (n e k hLen : Nat) (lHash seed : List Nat)
    (mgf : List Nat → Nat → List Nat) (message : List Nat) : List Nat :=
  encode64 (rsaOaepEncrypt n e k hLen lHash seed mgf message)

/-- `EncryptedChat.decryptMessage`: base64-decode, then RSA-OAEP decrypt
under the private key `(n, d)`; `none` models the thrown error. -/
def decryptMessage (n d k hLen : Nat) (lHash : List Nat)
    (mgf : List Nat → Nat → List Nat) (encryptedMessage : List Nat) : Option (List Nat) :=
  (decode64 encryptedMessage).bind (rsaOaepDecrypt n d k hLen lHash mgf)

lemma pow_pred_mul_add_one_modEq_self (p m t : Nat) (hp : p.Prime) :
    m ^ ((p - 1) * t + 1) ≡ m [MOD p] := by
  by_cases hpm : p ∣ m
  · have h1 : m ^ ((p - 1) * t + 1) ≡ 0 [MOD p] :=
      (Nat.modEq_zero_iff_dvd).mpr (dvd_pow hpm (Nat.succ_ne_zero _))
    have h2 : m ≡ 0 [MOD p] := (Nat.modEq_zero_iff_dvd).mpr hpm
    exact h1.trans h2.symm
  · have hco : m.Coprime p := ((Nat.Prime.coprime_iff_not_dvd hp).mpr hpm).symm
    have hf : m ^ (p - 1) ≡ 1 [MOD p] := by
      have h := Nat.ModEq.pow_totient hco
      rwa [Nat.totient_prime hp] at h
    calc m ^ ((p - 1) * t + 1) = (m ^ (p - 1)) ^ t * m := by
          rw [pow_add, pow_mul, pow_one]
      _ ≡ 1 ^ t * m [MOD p] := Nat.ModEq.mul_right m (hf.pow t)
      _ = m := by rw [one_pow, one_mul]

/-- Textbook RSA correctness: for distinct primes `p ≠ q`, `n = p·q` and
`e·d ≡ 1 (mod (p-1)(q-1))`, decryption inverts encryption on every
residue `m < n`. -/
theorem rsa_roundtrip (p q n e d m : Nat) (hp : p.Prime) (hq : q.Prime)
    (hpq : p ≠ q) (hn : n = p * q)
    (hed : e * d ≡ 1 [MOD (p - 1) * (q - 1)]) (hm : m < n) :
    (m ^ e % n) ^ d % n = m := by
  have hp2 : 2 ≤ p := hp.two_le
  have hq2 : 2 ≤ q := hq.two_le
  have hphi : 2 ≤ (p - 1) * (q - 1) := by
    rcases (show 3 ≤ p ∨ 3 ≤ q by omega) with h | h
    · calc 2 = 2 * 1 := rfl
        _ ≤ (p - 1) * (q - 1) := Nat.mul_le_mul (by omega) (by omega)
    · calc 2 = 1 * 2 := rfl
        _ ≤ (p - 1) * (q - 1) := Nat.mul_le_mul (by omega) (by omega)
  have hed' : e * d % ((p - 1) * (q - 1)) = 1 := by
    have := hed
    unfold Nat.ModEq at this
    rwa [Nat.mod_eq_of_lt hphi] at this
  set t := e * d / ((p - 1) * (q - 1)) with ht
  have hsplit : e * d = (p - 1) * ((q - 1) * t) + 1 := by
    have h := Nat.div_add_mod (e * d) ((p - 1) * (q - 1))
    rw [hed'] at h
    rw [ht]
    ring_nf
    ring_nf at h
    omega
  have hsplitq : e * d = (q - 1) * ((p - 1) * t) + 1 := by
    rw [hsplit]
    ring
  have hmp : m ^ (e * d) ≡ m [MOD p] := by
    rw [hsplit]
    exact pow_pred_mul_add_one_modEq_self p m ((q - 1) * t) hp
  have hmq : m ^ (e * d) ≡ m [MOD q] := by
    rw [hsplitq]
    exact pow_pred_mul_add_one_modEq_self q m ((p - 1) * t) hq
  have hcop : p.Coprime q := (Nat.coprime_primes hp hq).mpr hpq
  have hmn : m ^ (e * d) ≡ m [MOD n] := by
    rw [hn]
    exact (Nat.modEq_and_modEq_iff_modEq_mul hcop).mp ⟨hmp, hmq⟩
  calc (m ^ e % n) ^ d % n = (m ^ e) ^ d % n := (Nat.pow_mod (m ^ e) d n).symm
    _ = m ^ (e * d) % n := by rw [← pow_mul]
    _ = m % n := hmn
    _ = m := Nat.mod_eq_of_lt hm

lemma length_oaepEncode (k hLen : Nat) (lHash seed M : List Nat)
    (mgf : List Nat → Nat → List Nat)
    (hk : 2 * hLen + 2 ≤ k) (hseed : seed.length = hLen)
    (hmgf : ∀ s m, (mgf s m).length = m)
    (hlh : lHash.length = hLen) :
    (oaepEncode k hLen lHash seed mgf M).length = k := by
  simp only [oaepEncode, List.length_cons, List.length_append, length_xorBytes, hmgf,
    List.length_replicate, hseed, hlh]
  omega

lemma mem_oaepEncode_lt (k hLen : Nat) (lHash seed M : List Nat)
    (mgf : List Nat → Nat → List Nat)
    (hlhB : ∀ x ∈ lHash, x < 256) (hseedB : ∀ x ∈ seed, x < 256)
    (hmgfB : ∀ s m, ∀ x ∈ mgf s m, x < 256) (hMB : ∀ x ∈ M, x < 256) :
    ∀ x ∈ oaepEncode k hLen lHash seed mgf M, x < 256 := by
  have hDBB : ∀ x ∈ lHash ++ List.replicate (k - M.length - 2 * hLen - 2) 0 ++ 1 :: M,
      x < 256 := by
    intro x hx
    simp only [List.mem_append, List.mem_cons, List.mem_replicate] at hx
    rcases hx with (hx | hx) | hx | hx
    · exact hlhB x hx
    · omega
    · omega
    · exact hMB x hx
  intro x hx
  simp only [oaepEncode, List.mem_cons, List.mem_append] at hx
  rcases hx with rfl | hx | hx
  · omega
  · exact mem_xorBytes_lt hseedB (hmgfB _ _) x hx
  · exact mem_xorBytes_lt hDBB (hmgfB _ _) x hx

lemma os2ip_cons_zero (l : List Nat) : os2ip (0 :: l) = os2ip l := by
  simp [os2ip]

lemma os2ip_oaepEncode_lt (k hLen : Nat) (lHash seed M : List Nat)
    (mgf : List Nat → Nat → List Nat)
    (hk : 2 * hLen + 2 ≤ k) (hseed : seed.length = hLen)
    (hmgf : ∀ s m, (mgf s m).length = m) (hlh : lHash.length = hLen)
    (hlhB : ∀ x ∈ lHash, x < 256) (hseedB : ∀ x ∈ seed, x < 256)
    (hmgfB : ∀ s m, ∀ x ∈ mgf s m, x < 256) (hMB : ∀ x ∈ M, x < 256) :
    os2ip (oaepEncode k hLen lHash seed mgf M) < 256 ^ (k - 1) := by
  obtain ⟨rest, hrest⟩ : ∃ rest, oaepEncode k hLen lHash seed mgf M = 0 :: rest :=
    ⟨_, rfl⟩
  have hlen := length_oaepEncode k hLen lHash seed M mgf hk hseed hmgf hlh
  rw [hrest] at hlen
  simp only [List.length_cons] at hlen
  have hB := mem_oaepEncode_lt k hLen lHash seed M mgf hlhB hseedB hmgfB hMB
  rw [hrest] at hB
  have hrB : ∀ x ∈ rest, x < 256 := fun x hx => hB x (by simp [hx])
  calc os2ip (oaepEncode k hLen lHash seed mgf M) = os2ip rest := by
        rw [hrest, os2ip_cons_zero]
    _ < 256 ^ rest.length := os2ip_lt rest hrB
    _ ≤ 256 ^ (k - 1) := by
        rw [show rest.length = k - 1 by omega]

/-- C1: for every plaintext `P` whose length is at most the OAEP maximum
payload `k - (2·hLen + 2)` for the key, decrypting the result of
`encryptMessage P pub` with the matching private key returns `P`:
`decryptMessage (encryptMessage P pub) priv = some P` for a matching
RSA key pair `(n = p·q, e, d)`. -/
theorem decryptMessage_encryptMessage_roundtrip
    (p q n e d k hLen : Nat) (lHash seed M : List Nat)
    (mgf : List Nat → Nat → List Nat)
    (hp : p.Prime) (hq : q.Prime) (hpq : p ≠ q) (hn : n = p * q)
    (hed : e * d ≡ 1 [MOD (p - 1) * (q - 1)])
    (hnlo : 256 ^ (k - 1) ≤ n) (hnhi : n ≤ 256 ^ k)
    (hk : 2 * hLen + 2 ≤ k)
    (hlh : lHash.length = hLen) (hseed : seed.length = hLen)
    (hlhB : ∀ x ∈ lHash, x < 256) (hseedB : ∀ x ∈ seed, x < 256)
    (hmgfLen : ∀ s m, (mgf s m).length = m)
    (hmgfB : ∀ s m, ∀ x ∈ mgf s m, x < 256)
    (hMB : ∀ x ∈ M, x < 256)
    (hM : M.length ≤ k - (2 * hLen + 2)) :
    decryptMessage n d k hLen lHash mgf (encryptMessage n e k hLen lHash seed mgf M)
      = some M := by
  have hnpos : 0 < n := by
    rw [hn]
    exact Nat.mul_pos hp.pos hq.pos
  have hEMlen : (oaepEncode k hLen lHash seed mgf M).length = k :=
    length_oaepEncode k hLen lHash seed M mgf hk hseed hmgfLen hlh
  have hEMB : ∀ x ∈ oaepEncode k hLen lHash seed mgf M, x < 256 :=
    mem_oaepEncode_lt k hLen lHash seed M mgf hlhB hseedB hmgfB hMB
  have hEMlt : os2ip (oaepEncode k hLen lHash seed mgf M) < n :=
    lt_of_lt_of_le
      (os2ip_oaepEncode_lt k hLen lHash seed M mgf hk hseed hmgfLen hlh
        hlhB hseedB hmgfB hMB) hnlo
  unfold encryptMessage decryptMessage rsaOaepEncrypt rsaOaepDecrypt
  rw [decode64_encode64 _ (mem_i2osp_lt _ _), Option.some_bind]
  rw [os2ip_i2osp k _ (lt_of_lt_of_le (Nat.mod_lt _ hnpos) hnhi)]
  rw [rsa_roundtrip p q n e d _ hp hq hpq hn hed hEMlt]
  have hEMrec : i2osp k (os2ip (oaepEncode k hLen lHash seed mgf M))
      = oaepEncode k hLen lHash seed mgf M := i2osp_os2ip' k _ hEMB hEMlen
  rw [hEMrec]
  exact oaepDecode_oaepEncode k hLen lHash seed M mgf hk hlh hseed hmgfLen hM

/-- A concrete mask generation function: every requested mask byte is
`0x5A`. -/
def mgf90 : List Nat → Nat → List Nat := fun _ m => List.replicate m 90

/-- Witness for the C1 round-trip law at the concrete RSA key pair
`p = 4111`, `q = 4127`, `n = 16966097`, `e = 19`, `d = 892519`
(`e·d = φ(n) + 1`), modulus byte-length `k = 4`, and plaintext
`"Hi" = [72, 105]`. -/
theorem decryptMessage_encryptMessage_roundtrip_witness :
    decryptMessage 16966097 892519 4 0 [] mgf90
      (encryptMessage 16966097 19 4 0 [] [] mgf90 [72, 105]) = some [72, 105] :=
  decryptMessage_encryptMessage_roundtrip 4111 4127 16966097 19 892519 4 0 [] [] [72, 105]
    mgf90
    (by norm_num) (by norm_num) (by decide) (by norm_num)
    (by rfl) (by norm_num) (by norm_num) (by norm_num)
    rfl rfl (by simp) (by simp)
    (fun s m => by simp [mgf90])
    (fun s m x hx => by
      simp only [mgf90, List.mem_replicate] at hx
      omega)
    (by decide) (by decide)

/-! ## PDA seed derivation

`PublicKey.findProgramAddress(seeds, programId)` hashes the seed bytes;
collision-freeness over distinct seed byte strings is the host chain's
guarantee, so the address is modeled by its seed byte string.  The code
uses `[Buffer.from('chat_room')]` for the counter and
`[Buffer.from('message'), messageCount.toArrayLike(Buffer, 'le', 8)]`
for message number `messageCount`. -/

/-- Character codes of the literal `'chat_room'` seed (empty
discriminator). -/
def chatRoomSeed : List Nat := [99, 104, 97, 116, 95, 114, 111, 111, 109]

/-- Character codes of the literal `'message'` seed tag. -/
def messageSeedTag : List Nat := [109, 101, 115, 115, 97, 103, 101]

/-- `n.toArrayLike(Buffer, 'le', k)`: `k`-byte little-endian encoding. -/
def leBytes : Nat → Nat → List Nat
  | 0, _ => []
  | k + 1, n => n % 256 :: leBytes k (n / 256)

/-- The seed bytes of the PDA for message number `n`. -/
def messageSeeds (n : Nat) : List Nat := messageSeedTag ++ leBytes 8 n

lemma leBytes_inj : ∀ k m n, m < 256 ^ k → n < 256 ^ k →
    leBytes k m = leBytes k n → m = n
  | 0, m, n, hm, hn, _ => by
      simp [Nat.pow_zero] at hm hn
      omega
  | k + 1, m, n, hm, hn, h => by
      simp only [leBytes, List.cons.injEq] at h
      have hdiv : m / 256 = n / 256 := by
        refine leBytes_inj k (m / 256) (n / 256) ?_ ?_ h.2
        · rw [pow_succ] at hm
          omega
        · rw [pow_succ] at hn
          omega
      omega

/-! ## The on-chain ledger

Modelled from the spec: the Anchor program
`programs/solana-encrypted-chat/src/lib.rs` is not among the given
source files (only the client, the CLI and the tests are), so the
`ChatRoom`/`Message` accounts and the `initialize`/`send_message`
instructions are modelled from spec §3 and §4.3: idempotent
create-if-absent initialize, read-counter/store-record/increment
append with the 512-byte payload bound. -/

/-- A `Message` account (spec §3 `MessageRecord`); identities are opaque
comparable values. -/
structure MessageRecord where
  sender : Nat
  recipient : Nat
  encryptedContent : List Nat
  timestamp : Int
  messageId : Nat
deriving DecidableEq

/-- State of one namespace: the `ChatRoom` counter account (absent
until initialized) plus every `Message` account in creation order. -/
structure LedgerState where
  roomCounter : Option Nat
  messages : List MessageRecord
deriving DecidableEq

/-- The namespace before `initialize`. -/
def emptyLedger : LedgerState := ⟨none, []⟩

/-- The namespace right after a successful `initialize`. -/
def freshLedger : LedgerState := ⟨some 0, []⟩

/-- Failure modes of a submitted transaction as seen by the client. -/
inductive TxError where
  | alreadyInitialized
  | transport
  | other
deriving DecidableEq

/-- Modelled from the spec: the on-chain `initialize` instruction
creates the `ChatRoom` account with `message_count = 0` when absent and
rejects the create when it already exists; `tx` is the signature the
RPC returns on success. -/
def ledgerInitialize (tx : Nat) (s : LedgerState) :
    Except TxError (LedgerState × Nat) :=
  match s.roomCounter with
  | some _ => .error .alreadyInitialized
  | none => .ok (⟨some 0, s.messages⟩, tx)

/-- The `try/catch` of `EncryptedChat.initializeChatRoom` around
`.rpc()`: a successful transaction yields its signature, any error at
all is swallowed (logged) and the function returns `undefined`
(`none`). -/
def catchInitialize (r : Except TxError (LedgerState × Nat))
    (s : LedgerState) : LedgerState × Option Nat :=
  match r with
  | .ok (s', t) => (s', some t)
  | .error _ => (s, none)

/-- `EncryptedChat.initializeChatRoom`: submit the initialize
transaction and catch every error. -/
def initializeChatRoom (tx : Nat) (s : LedgerState) : LedgerState × Option Nat :=
  catchInitialize (ledgerInitialize tx s) s

/-- Modelled from the spec: the on-chain `send_message` instruction
(spec §4.3 `append`): read `message_count = n`, store
`Message { sender, recipient, encrypted_content, timestamp,
message_id = n }` at the PDA for `n`, increment the counter; fails when
the room is uninitialized or the payload exceeds 512 bytes. -/
def sendMessageTx (s : LedgerState) (sender recipient : Nat)
    (content : List Nat) (ts : Int) : Option (LedgerState × Nat) :=
  match s.roomCounter with
  | none => none
  | some n =>
      if content.length ≤ 512 then
        some (⟨some (n + 1), s.messages ++ [⟨sender, recipient, content, ts, n⟩]⟩, n)
      else none

/-- One `sendMessage` request. -/
structure SendReq where
  sender : Nat
  recipient : Nat
  content : List Nat
  timestamp : Int
deriving DecidableEq

/-- A sequence of `sendMessage` calls, each asking the chain for the
current count and appending; returns the final state and the assigned
`message_id`s in call order, or `none` as soon as one call fails. -/
def sendAll (s : LedgerState) : List SendReq → Option (LedgerState × List Nat)
  | [] => some (s, [])
  | r :: rs =>
      match sendMessageTx s r.sender r.recipient r.content r.timestamp with
      | none => none
      | some (s', id) =>
          match sendAll s' rs with
          | none => none
          | some (s'', ids) => some (s'', id :: ids)

/-- The records a run of `sendAll` creates when the counter starts at
`n`. -/
def buildRecords : Nat → List SendReq → List MessageRecord
  | _, [] => []
  | n, r :: rs => ⟨r.sender, r.recipient, r.content, r.timestamp, n⟩ :: buildRecords (n + 1) rs

lemma sendAll_go : ∀ (rs : List SendReq) (n : Nat) (msgs : List MessageRecord),
    (∀ r ∈ rs, r.content.length ≤ 512) →
    sendAll ⟨some n, msgs⟩ rs
      = some (⟨some (n + rs.length), msgs ++ buildRecords n rs⟩, List.range' n rs.length)
  | [], n, msgs, _ => by simp [sendAll, buildRecords]
  | r :: rs, n, msgs, h => by
      have hr : r.content.length ≤ 512 := h r (by simp)
      have ih := sendAll_go rs (n + 1) (msgs ++ [⟨r.sender, r.recipient, r.content, r.timestamp, n⟩])
        (fun x hx => h x (by simp [hx]))
      simp only [sendAll, sendMessageTx, if_pos hr, ih, buildRecords, List.length_cons,
        List.range'_succ, List.append_assoc, List.singleton_append]
      rw [show n + (rs.length + 1) = n + 1 + rs.length by omega]

lemma buildRecords_ids : ∀ (rs : List SendReq) (n : Nat),
    (buildRecords n rs).map (fun m => m.messageId) = List.range' n rs.length
  | [], _ => rfl
  | r :: rs, n => by
      simp only [buildRecords, List.map_cons, buildRecords_ids rs (n + 1),
        List.length_cons, List.range'_succ]

/-! ## Client read path -/

/-- The record `getMessagesForUser` returns for one message. -/
structure UserMessage where
  sender : Nat
  recipient : Nat
  encryptedContent : List Nat
  timestamp : Int
  messageId : Nat
deriving DecidableEq

/-- `EncryptedChat.getMessagesForUser`: fetch every `Message` account
(`program.account.message.all()` — `fetched` is the list in whatever
order the RPC returns it, which the store does not guarantee), keep
those whose `recipient` equals the user, and map each to its display
record, re-encoding the stored bytes to base64.  No sort is applied. -/
def getMessagesForUser (fetched : List MessageRecord) (user : Nat) :
    List UserMessage :=
  (fetched.filter (fun m => m.recipient == user)).map
    (fun m => ⟨m.sender, m.recipient, encode64 m.encryptedContent, m.timestamp, m.messageId⟩)

/-- Outcome displayed for one record by the read loop. -/
inductive ReadOutcome where
  | decrypted (sender : Nat) (timestamp : Int) (plaintext : List Nat)
  | failed (sender : Nat) (timestamp : Int)
deriving DecidableEq

/-- The per-message loop of `cli.js` `read` (and of the demo): each
fetched record is decrypted inside its own `try/catch`; on failure the
loop prints a per-record error marker and continues with the next
record. -/
def readMessages (decrypt : List Nat → Option (List Nat))
    (msgs : List UserMessage) : List ReadOutcome :=
  msgs.map fun m =>
    match decrypt m.encryptedContent with
    | some pt => .decrypted m.sender m.timestamp pt
    | none => .failed m.sender m.timestamp

/-! ## Key-file persistence (`cli.js`) -/

/-- The `keys/` directory: file name (char codes) to contents. -/
def FileSys : Type := List Nat → Option (List Nat)

/-- `loadOrCreateKeypair` of `cli.js`: if the key file exists, parse and
return its contents unchanged; otherwise generate a fresh keypair
(`fresh` makes the randomness explicit), write it, and return it. -/
def loadOrCreateKeypair (fs : FileSys) (filename fresh : List Nat) :
    FileSys × List Nat :=
  match fs filename with
  | some data => (fs, data)
  | none => (fun g => if g = filename then some fresh else fs g, fresh)

/-- `loadOrCreateEncryptionKeys` of `cli.js`: same load-before-create
shape for the RSA key files. -/
def loadOrCreateEncryptionKeys (fs : FileSys) (filename fresh : List Nat) :
    FileSys × List Nat :=
  match fs filename with
  | some keys => (fs, keys)
  | none => (fun g => if g = filename then some fresh else fs g, fresh)

/-! ## Claim theorems (C2 — C10) -/

/-- C2: for every sequence of `N` successful appends (`sendMessage`
calls) to a freshly initialized namespace, the assigned `message_id`s
are exactly `0..N-1` in call order — each equal to the `message_count`
observed at its append — and `message_count = N` afterwards (the stored
records carry those same ids). -/
theorem sendMessage_ids_sequential (rs : List SendReq)
    (h : ∀ r ∈ rs, r.content.length ≤ 512) :
    sendAll freshLedger rs
      = some (⟨some rs.length, buildRecords 0 rs⟩, List.range rs.length)
    ∧ (buildRecords 0 rs).map (fun m => m.messageId) = List.range rs.length := by
  have hgo := sendAll_go rs 0 [] h
  constructor
  · unfold freshLedger
    rw [hgo]
    simp [List.range_eq_range']
  · rw [buildRecords_ids]
    simp [List.range_eq_range']

/-- Witness for C2: two appends to the fresh namespace are assigned ids
`0` then `1`. -/
theorem sendMessage_ids_sequential_witness :
    sendAll freshLedger [⟨1, 2, [5], 0⟩, ⟨2, 1, [6], 1⟩]
      = some (⟨some 2, buildRecords 0 [⟨1, 2, [5], 0⟩, ⟨2, 1, [6], 1⟩]⟩, List.range 2) :=
  (sendMessage_ids_sequential [⟨1, 2, [5], 0⟩, ⟨2, 1, [6], 1⟩] (by decide)).1

/-- Counterexample to C3 as stated: when the store returns the two
records addressed to recipient `7` in the order `message_id = 1, 0`,
`getMessagesForUser` returns them in that unsorted order — the code
filters but never sorts by `message_id`. -/
theorem getMessagesForUser_not_sorted :
    ¬ List.Pairwise (fun a b : UserMessage => a.messageId < b.messageId)
      (getMessagesForUser [⟨1, 7, [], 0, 1⟩, ⟨1, 7, [], 0, 0⟩] 7) := by
  decide

/-- C3 (amended): `getMessagesForUser` returns exactly the fetched
records whose recipient equals the user — as many as match, each with
that recipient, in the store's return order, hence ascending in
`message_id` exactly when the fetched sequence is — and the empty list
(not an error) when no message was ever addressed to the user. -/
theorem getMessagesForUser_filters (fetched : List MessageRecord) (u : Nat) :
    (∀ m ∈ getMessagesForUser fetched u, m.recipient = u)
    ∧ (getMessagesForUser fetched u).length
        = fetched.countP (fun m => m.recipient == u)
    ∧ (getMessagesForUser fetched u).map (fun m => m.messageId)
        = (fetched.filter (fun m => m.recipient == u)).map (fun m => m.messageId)
    ∧ (List.Pairwise (fun a b => a.messageId < b.messageId) fetched →
        List.Pairwise (fun a b : UserMessage => a.messageId < b.messageId)
          (getMessagesForUser fetched u))
    ∧ ((∀ m ∈ fetched, m.recipient ≠ u) → getMessagesForUser fetched u = []) := by
  refine ⟨?_, ?_, ?_, ?_, ?_⟩
  · intro m hm
    simp only [getMessagesForUser, List.mem_map, List.mem_filter, beq_iff_eq] at hm
    obtain ⟨a, ⟨_, ha⟩, rfl⟩ := hm
    exact ha
  · simp [getMessagesForUser, List.countP_eq_length_filter]
  · simp [getMessagesForUser, List.map_map]
  · intro h
    exact (h.filter _).map _ (fun a b hab => hab)
  · intro h
    simp only [getMessagesForUser, List.map_eq_nil_iff, List.filter_eq_nil_iff]
    intro a ha
    simpa using h a ha

/-- Witness for C3 (amended), the `receive("carol")` scenario: a ledger
whose only message targets recipient `2` yields the empty inbox for
user `7`, without an error. -/
theorem getMessagesForUser_filters_witness :
    getMessagesForUser [⟨1, 2, [], 0, 0⟩] 7 = [] :=
  (getMessagesForUser_filters [⟨1, 2, [], 0, 0⟩] 7).2.2.2.2 (by decide)

/-- C4: `initialize` is idempotent: the first call on a namespace
creates the counter account with `message_count = 0` and returns the
transaction signature; a second call leaves the state — in particular
`message_count = 0` — unchanged and returns normally (`none`, the
caught benign already-exists condition) instead of raising a fatal
error. -/
theorem initializeChatRoom_idempotent (tx1 tx2 : Nat) :
    (initializeChatRoom tx1 emptyLedger).1.roomCounter = some 0
    ∧ (initializeChatRoom tx1 emptyLedger).2 = some tx1
    ∧ initializeChatRoom tx2 (initializeChatRoom tx1 emptyLedger).1
        = ((initializeChatRoom tx1 emptyLedger).1, none) :=
  ⟨rfl, rfl, rfl⟩

/-- Witness for C4 at concrete transaction signatures `3` and `5`. -/
theorem initializeChatRoom_idempotent_witness :
    (initializeChatRoom 3 emptyLedger).1.roomCounter = some 0
    ∧ (initializeChatRoom 3 emptyLedger).2 = some 3
    ∧ initializeChatRoom 5 (initializeChatRoom 3 emptyLedger).1
        = ((initializeChatRoom 3 emptyLedger).1, none) :=
  initializeChatRoom_idempotent 3 5

/-- C5: address derivation is deterministic (a pure function of the
seeds) and injective over message ids: the counter PDA is derived from
the literal `'chat_room'` tag with empty discriminator, the PDA for
message `n` from the literal `'message'` tag plus the 8-byte
little-endian encoding of `n`, and two distinct `message_id`s below
`2^64` always produce distinct seed byte strings, hence distinct
derived addresses. -/
theorem pda_derivation_injective :
    chatRoomSeed = [99, 104, 97, 116, 95, 114, 111, 111, 109]
    ∧ (∀ n, messageSeeds n = messageSeedTag ++ leBytes 8 n)
    ∧ ∀ m n, m < 256 ^ 8 → n < 256 ^ 8 → m ≠ n →
        messageSeeds m ≠ messageSeeds n := by
  refine ⟨rfl, fun n => rfl, fun m n hm hn hmn h => hmn ?_⟩
  exact leBytes_inj 8 m n hm hn (List.append_cancel_left h)

/-- Witness for C5: message ids `0` and `1` derive distinct seeds. -/
theorem pda_derivation_injective_witness :
    messageSeeds 0 ≠ messageSeeds 1 :=
  pda_derivation_injective.2.2 0 1 (by norm_num) (by norm_num) (by decide)

/-- C6: a decryption failure is reported for that record alone: the
read loop processes every record (output length equals input length),
and every record whose ciphertext decrypts successfully is displayed
decrypted, whatever happens to the other records of the batch. -/
theorem readMessages_partial_success (decrypt : List Nat → Option (List Nat))
    (msgs : List UserMessage) :
    (readMessages decrypt msgs).length = msgs.length
    ∧ ∀ (i : Nat) (m : UserMessage) (pt : List Nat),
        msgs[i]? = some m → decrypt m.encryptedContent = some pt →
        (readMessages decrypt msgs)[i]?
          = some (.decrypted m.sender m.timestamp pt) := by
  constructor
  · simp [readMessages]
  · intro i m pt hm hpt
    simp [readMessages, List.getElem?_map, hm, hpt]

/-- A decryption function for the C6 witness: only the ciphertext `[1]`
decrypts (to `[9]`); everything else fails. -/
def decOnlyOne : List Nat → Option (List Nat) :=
  fun c => if c = [1] then some [9] else none

/-- Witness for C6: in a two-record inbox whose first record fails to
decrypt, the second record is still displayed decrypted. -/
theorem readMessages_partial_success_witness :
    (readMessages decOnlyOne [⟨3, 3, [2], 0, 0⟩, ⟨4, 4, [1], 0, 1⟩])[1]?
      = some (.decrypted 4 0 [9]) :=
  (readMessages_partial_success decOnlyOne [⟨3, 3, [2], 0, 0⟩, ⟨4, 4, [1], 0, 1⟩]).2
    1 ⟨4, 4, [1], 0, 1⟩ [9] rfl rfl

/-- C8: the base64 boundary between the codec and the ledger is
lossless: for a ciphertext byte string, `sendMessage`'s decode of the
base64 string produced by `encryptMessage` recovers exactly those
bytes, and `getMessagesForUser`'s re-encoding of the stored bytes
yields the original string — so `decryptMessage` operates on exactly
the ciphertext that was sent. -/
theorem base64_boundary_lossless (cipher : List Nat)
    (hB : ∀ x ∈ cipher, x < 256) :
    ∃ stored, decode64 (encode64 cipher) = some stored
      ∧ encode64 stored = encode64 cipher
      ∧ stored = cipher :=
  ⟨cipher, decode64_encode64 cipher hB, rfl, rfl⟩

/-- Witness for C8 at the ciphertext bytes `[0, 255, 77]`. -/
theorem base64_boundary_lossless_witness :
    ∃ stored, decode64 (encode64 [0, 255, 77]) = some stored
      ∧ encode64 stored = encode64 [0, 255, 77]
      ∧ stored = [0, 255, 77] :=
  base64_boundary_lossless [0, 255, 77] (by decide)

/-- C9: `initializeChatRoom` never throws: a successful transaction
returns its signature, every failure — already-exists, transport, or
any other error — is caught and returned as `undefined` (`none`), and
any two failure outcomes are indistinguishable to the caller. -/
theorem initializeChatRoom_never_throws :
    (∀ (s s' : LedgerState) (tx : Nat),
        catchInitialize (.ok (s', tx)) s = (s', some tx))
    ∧ (∀ (s : LedgerState) (e : TxError),
        catchInitialize (.error e) s = (s, none))
    ∧ (∀ (s : LedgerState) (e e' : TxError),
        catchInitialize (.error e) s = catchInitialize (.error e') s) :=
  ⟨fun _ _ _ => rfl, fun _ _ => rfl, fun _ _ _ => rfl⟩

/-- Witness for C9: a transport failure and the benign already-exists
failure both return `none` and are indistinguishable. -/
theorem initializeChatRoom_never_throws_witness :
    catchInitialize (.error .transport) freshLedger = (freshLedger, none)
    ∧ catchInitialize (.error .transport) freshLedger
        = catchInitialize (.error .alreadyInitialized) freshLedger :=
  ⟨initializeChatRoom_never_throws.2.1 freshLedger .transport,
    initializeChatRoom_never_throws.2.2 freshLedger .transport .alreadyInitialized⟩

/-- C10: key loading never destroys existing key material: when the key
file exists, both loaders return exactly the stored contents and leave
the file system untouched; a fresh key is written only when no file
exists for that label, and even then no other file changes. -/
theorem keyfile_load_never_overwrites (fs : FileSys)
    (filename data fresh : List Nat) :
    (fs filename = some data →
      loadOrCreateKeypair fs filename fresh = (fs, data)
      ∧ loadOrCreateEncryptionKeys fs filename fresh = (fs, data))
    ∧ (fs filename = none →
      (loadOrCreateKeypair fs filename fresh).1 filename = some fresh
      ∧ (loadOrCreateKeypair fs filename fresh).2 = fresh
      ∧ ∀ g, g ≠ filename →
          (loadOrCreateKeypair fs filename fresh).1 g = fs g
          ∧ (loadOrCreateEncryptionKeys fs filename fresh).1 g = fs g) := by
  refine ⟨fun h => ?_, fun h => ⟨?_, ?_, fun g hg => ⟨?_, ?_⟩⟩⟩
  · simp [loadOrCreateKeypair, loadOrCreateEncryptionKeys, h]
  · simp [loadOrCreateKeypair, h]
  · simp [loadOrCreateKeypair, h]
  · simp [loadOrCreateKeypair, h, hg]
  · simp [loadOrCreateEncryptionKeys, h, hg]

/-- A one-file key store for the C10 witness: only the file `[97]`
exists, holding `[5]`. -/
def fsOneKey : FileSys := fun g => if g = [97] then some [5] else none

/-- Witness for C10: with the key file `[97]` present, both loaders
return the stored contents `[5]` and the file system unchanged. -/
theorem keyfile_load_never_overwrites_witness :
    loadOrCreateKeypair fsOneKey [97] [9] = (fsOneKey, [5])
    ∧ loadOrCreateEncryptionKeys fsOneKey [97] [9] = (fsOneKey, [5]) :=
  (keyfile_load_never_overwrites fsOneKey [97] [5] [9]).1 rfl

end SolanaChat
